import Mathlib

/-!
Shallow embedding of the HLS downloader core (`src/download.py`) and proofs
about its playlist parsing, variant selection, encryption probing, segment
retry logic, concurrent retrieval bookkeeping and final assembly.

Modelling conventions:
* A text document (playlist body) is represented by the list of its physical
  lines, i.e. the result of Python `str.splitlines()`.
* The network is a pure parameter `fetch : String → List String` mapping a URL
  to the body of the response (as lines); within one call of the resolver the
  headers and timeout are fixed, so they are absorbed into `fetch`.
* `urllib.parse.urljoin` is a pure parameter `join : String → String → String`
  (base, relative ↦ absolute); the code only ever applies it.
* Exceptions (`ValueError`, `RuntimeError`) are modelled with `Except String`.
* Machine integers do not overflow here (Python ints are unbounded), so `Nat`
  is used throughout; the float backoff base is modelled as `ℚ`.
* `re.search` of the three concrete patterns appearing in the source is
  modelled by dedicated leftmost-match scanners over `List Char`.
-/

/-- Python `str.strip()` (whitespace at both ends removed). -/
def pyStrip (s : String) : String :=
  (((s.toList.dropWhile Char.isWhitespace).reverse.dropWhile Char.isWhitespace).reverse).asString

/-- Python `s.startswith(pre)`. -/
def pyStartswith (s pre : String) : Bool :=
  pre.toList.isPrefixOf s.toList

/-- Python `s.endswith(suf)`. -/
def pyEndswith (s suf : String) : Bool :=
  suf.toList.isSuffixOf s.toList

/-- Python `pat in s` (substring containment). -/
def pyContains (s pat : String) : Bool :=
  s.toList.tails.any (fun t => pat.toList.isPrefixOf t)

/-- Value of a digit string (the regex groups below only produce digits). -/
def digitsToNat (cs : List Char) : Nat :=
  cs.foldl (fun n c => n * 10 + (c.toNat - ('0').toNat)) 0

/-- Python `int(str)` restricted to what the call sites can receive: succeeds
on a nonempty all-digit string, raises `ValueError` (`none`) otherwise. -/
def pyIntOfChars (cs : List Char) : Option Nat :=
  if cs ≠ [] ∧ cs.all Char.isDigit then some (digitsToNat cs) else none

/-- The character of a decimal digit. -/
def digitChar : Nat → Char
  | 0 => '0' | 1 => '1' | 2 => '2' | 3 => '3' | 4 => '4'
  | 5 => '5' | 6 => '6' | 7 => '7' | 8 => '8' | _ => '9'

/-- Least-significant-first decimal digits of `n`; `fuel ≥ n` suffices. -/
def natDigitsAux : Nat → Nat → List Char
  | 0, _ => []
  | fuel + 1, n => if n = 0 then [] else digitChar (n % 10) :: natDigitsAux fuel (n / 10)

/-- Decimal rendering of a natural number, most significant digit first. -/
def natDecimal (n : Nat) : List Char :=
  if n = 0 then ['0'] else (natDigitsAux (n + 1) n).reverse

/-- Python `f"{i:06d}"`: decimal rendering of `i`, left-padded with zeros to
at least six characters. -/
def pad6 (i : Nat) : String :=
  (List.replicate (6 - (natDecimal i).length) '0' ++ natDecimal i).asString

/-- Match of regex `BANDWIDTH=(\d+)` at the *start* of `cs`: requires the
literal `BANDWIDTH=` followed by at least one digit; the group is the maximal
digit run. -/
def matchBandwidthAt (cs : List Char) : Option (List Char) :=
  if ("BANDWIDTH=".toList).isPrefixOf cs then
    let rest := cs.drop 10
    let run := rest.takeWhile Char.isDigit
    if run = [] then none else some run
  else none

/-- `re.search(r"BANDWIDTH=(\d+)", line)` (the *correct* pattern used in
`resolve_segments_from_m3u8`): leftmost position where the pattern matches,
returning group 1. -/
def findBandwidth : List Char → Option (List Char)
  | [] => none
  | c :: cs =>
    match matchBandwidthAt (c :: cs) with
    | some run => some run
    | none => findBandwidth cs

/-- Match of regex `BANDWIDTH=(\\d+)` (doubled backslash inside a raw string,
as written in `parse_master_variants_only` and
`detect_encryption_in_playlist_chain`) at the start of `cs`: the pattern text
is `BANDWIDTH=\\d+`, i.e. the literal `BANDWIDTH=`, then one literal
backslash, then one or more literal `d` characters; group 1 is the backslash
together with the `d` run. -/
def matchBandwidthBuggyAt (cs : List Char) : Option (List Char) :=
  if ("BANDWIDTH=".toList).isPrefixOf cs then
    match cs.drop 10 with
    | '\\' :: rest =>
      let run := rest.takeWhile (fun c => c = 'd')
      if run = [] then none else some ('\\' :: run)
    | _ => none
  else none

/-- `re.search(r"BANDWIDTH=(\\d+)", line)`: leftmost match of the buggy
pattern. -/
def findBandwidthBuggy : List Char → Option (List Char)
  | [] => none
  | c :: cs =>
    match matchBandwidthBuggyAt (c :: cs) with
    | some run => some run
    | none => findBandwidthBuggy cs

/-- Match of regex `RESOLUTION=(\d+)x(\d+)` at the start of `cs`: the literal
`RESOLUTION=`, a digit run (group 1), the literal `x`, a digit run
(group 2). -/
def matchResolutionAt (cs : List Char) : Option (List Char × List Char) :=
  if ("RESOLUTION=".toList).isPrefixOf cs then
    let rest := cs.drop 11
    let d1 := rest.takeWhile Char.isDigit
    if d1 = [] then none
    else
      match rest.drop d1.length with
      | 'x' :: rest2 =>
        let d2 := rest2.takeWhile Char.isDigit
        if d2 = [] then none else some (d1, d2)
      | _ => none
  else none

/-- `re.search(r"RESOLUTION=(\d+)x(\d+)", line)`: leftmost match, both
groups. -/
def findResolution : List Char → Option (List Char × List Char)
  | [] => none
  | c :: cs =>
    match matchResolutionAt (c :: cs) with
    | some g => some g
    | none => findResolution cs

/-- `[line.strip() for line in content.splitlines() if line.strip()]` — the
line normalisation shared by every playlist-handling function. -/
def stripNonEmpty (content : List String) : List String :=
  (content.map pyStrip).filter (fun l => l ≠ "")

/-- `int(bandwidth_match.group(1)) if bandwidth_match else 0` with the correct
pattern (`resolve_segments_from_m3u8`, line 214). -/
def bandwidthOfLine (line : String) : Nat :=
  match findBandwidth line.toList with
  | some g => digitsToNat g
  | none => 0

/-- Python `max(_, key=...)` over `Nat` keys: iterates left to right and
replaces the current maximum only on a strictly greater key, so the first
occurrence of the maximal key wins. `none` on the empty list (`ValueError`). -/
def pyMaxBy {α : Type} (key : α → Nat) : List α → Option α
  | [] => none
  | x :: xs => some (xs.foldl (fun best y => if key best < key y then y else best) x)

/-- Python `<` on pairs (tuple comparison): lexicographic. -/
def pairLt (a b : Nat × Nat) : Bool :=
  a.1 < b.1 || (a.1 = b.1 && a.2 < b.2)

/-- Python `max(_, key=...)` over pair keys, first maximal element wins. -/
def pyMaxByPair {α : Type} (key : α → Nat × Nat) : List α → Option α
  | [] => none
  | x :: xs => some (xs.foldl (fun best y => if pairLt (key best) (key y) then y else best) x)

/-- A master-playlist variant as produced by `parse_master_variants_only`:
`(bandwidth, height, uri)`. -/
abbrev Variant := Nat × Option Nat × String

/-- `choose_variant_best(variants)` (line 112): URI of
`max(variants, key=lambda v: (v[0], v[1] or 0))`; `none` on the empty list
(Python `max` raises `ValueError`). -/
def choose_variant_best (variants : List Variant) : Option String :=
  (pyMaxByPair (fun v => (v.1, v.2.1.getD 0)) variants).map (fun v => v.2.2)

/-- `parse_m3u8(content, base_url)` (lines 187–200): rejects master
playlists, otherwise returns every non-comment line absolutised against
`base_url`; raises when no segment line exists. -/
def parse_m3u8 (join : String → String → String) (content : List String)
    (base_url : String) : Except String (List String) :=
  let lines := stripNonEmpty content
  if lines.any (fun l => pyStartswith l "#EXT-X-STREAM-INF") then
    .error "Master playlist provided; use resolve_segments_from_m3u8() that preserves headers"
  else
    let segments := (lines.filter (fun l => ¬ pyStartswith l "#")).map (fun l => join base_url l)
    if segments = [] then .error "No segments found in playlist" else .ok segments

/-- `playlist_has_encryption(m3u8_text)` (lines 235–240): some line whose
stripped form starts with `#EXT-X-KEY` and which does not contain the
substring `METHOD=NONE`. -/
def playlist_has_encryption (content : List String) : Bool :=
  content.any (fun line =>
    pyStartswith (pyStrip line) "#EXT-X-KEY" && ¬ pyContains line "METHOD=NONE")

/-- The inline variant-collection loop of `resolve_segments_from_m3u8`
(lines 209–224), which uses the *correct* `BANDWIDTH=(\d+)` pattern: at a
stream-info line, skip the following comment lines, take the next line as the
variant URI (absolutised), and continue after it; a stream-info directive with
no following URI line ends the scan.  The source loop's inner `while` advance
of `j` over comment lines is realised by the `pending` argument:
`pending = some bw` records a stream-info line with bandwidth `bw` whose
variant URI (the next non-comment line) is still being sought — comment lines
met in that state are exactly the lines the inner `while` skips. -/
def resolveMasterVariantsGo (join : String → String → String) (base : String)
    (pending : Option Nat) : List String → List (Nat × String)
  | [] => []
  | line :: rest =>
    match pending with
    | some bw =>
      if pyStartswith line "#" then resolveMasterVariantsGo join base (some bw) rest
      else (bw, join base line) :: resolveMasterVariantsGo join base none rest
    | none =>
      if pyStartswith line "#EXT-X-STREAM-INF" then
        resolveMasterVariantsGo join base (some (bandwidthOfLine line)) rest
      else resolveMasterVariantsGo join base none rest

/-- See `resolveMasterVariantsGo`; the loop starts with no pending
stream-info line. -/
def resolveMasterVariants (join : String → String → String) (base : String)
    (lines : List String) : List (Nat × String) :=
  resolveMasterVariantsGo join base none lines

/-- `max(variants, key=lambda x: x[0])` over `(bandwidth, uri)` pairs
(line 227): first maximal bandwidth wins; `none` when empty. -/
def chooseByBandwidth (variants : List (Nat × String)) : Option (Nat × String) :=
  pyMaxBy (fun v => v.1) variants

/-- `resolve_segments_from_m3u8(m3u8_url, headers, timeout)` (lines 203–232):
fetch the top playlist; if it is a master playlist, collect variants, pick the
highest bandwidth, fetch that variant and parse it as a media playlist
(`parse_m3u8` raises if it is itself a master playlist); otherwise parse the
top playlist directly. -/
def resolve_segments_from_m3u8 (join : String → String → String)
    (fetch : String → List String) (m3u8_url : String) : Except String (List String) :=
  let top := fetch m3u8_url
  let lines := stripNonEmpty top
  if lines.any (fun l => pyStartswith l "#EXT-X-STREAM-INF") then
    match chooseByBandwidth (resolveMasterVariants join m3u8_url lines) with
    | none => .error "No HLS variants found in master playlist"
    | some best => parse_m3u8 join (fetch best.2) best.2
  else
    parse_m3u8 join top m3u8_url

/-- The variant URL that `resolve_segments_from_m3u8` fetches when the top
playlist is a master playlist (the `best_uri` of line 227). -/
def resolveChosenUri (join : String → String → String) (base : String)
    (lines : List String) : Option String :=
  (chooseByBandwidth (resolveMasterVariants join base lines)).map (fun v => v.2)

/-- `int(bandwidth_match.group(1)) if bandwidth_match else 0` with the buggy
doubled-backslash pattern (lines 96–98 and 253–254): no match gives 0; a match
hands `int()` a group starting with a literal backslash, raising
`ValueError`. -/
def buggyBandwidthOfLine (line : String) : Except String Nat :=
  match findBandwidthBuggy line.toList with
  | none => .ok 0
  | some g =>
    match pyIntOfChars g with
    | some n => .ok n
    | none => .error "ValueError: invalid literal for int()"

/-- Match of regex `RESOLUTION=(\\d+)x(\\d+)` (doubled backslashes, line 97)
at the start of `cs`: literal `RESOLUTION=`, a backslash, a `d` run, a literal
`x`, a backslash, a `d` run. -/
def matchResolutionBuggyAt (cs : List Char) : Option (List Char × List Char) :=
  if ("RESOLUTION=".toList).isPrefixOf cs then
    match cs.drop 11 with
    | '\\' :: rest =>
      let d1 := rest.takeWhile (fun c => c = 'd')
      if d1 = [] then none
      else
        match rest.drop d1.length with
        | 'x' :: '\\' :: rest2 =>
          let d2 := rest2.takeWhile (fun c => c = 'd')
          if d2 = [] then none else some ('\\' :: d1, '\\' :: d2)
        | _ => none
    | _ => none
  else none

/-- `re.search(r"RESOLUTION=(\\d+)x(\\d+)", line)`: leftmost match of the
buggy resolution pattern. -/
def findResolutionBuggy : List Char → Option (List Char × List Char)
  | [] => none
  | c :: cs =>
    match matchResolutionBuggyAt (c :: cs) with
    | some g => some g
    | none => findResolutionBuggy cs

/-- `int(resolution_match.group(2)) if resolution_match else None` with the
buggy pattern (lines 97–99). -/
def buggyHeightOfLine (line : String) : Except String (Option Nat) :=
  match findResolutionBuggy line.toList with
  | none => .ok none
  | some g =>
    match pyIntOfChars g.2 with
    | some n => .ok (some n)
    | none => .error "ValueError: invalid literal for int()"

/-- The loop of `parse_master_variants_only` (lines 92–108), over
already-normalised lines; as in `resolveMasterVariantsGo`, the inner `while`
advance over comment lines is realised by the `pending` argument, which here
carries the pair `(bandwidth, height)` computed at the stream-info line
(both may raise `ValueError` through the buggy patterns). -/
def parseMasterVariantsOnlyGo (join : String → String → String) (base : String)
    (pending : Option (Nat × Option Nat)) :
    List String → Except String (List Variant)
  | [] => .ok []
  | line :: rest =>
    match pending with
    | some bwh =>
      if pyStartswith line "#" then parseMasterVariantsOnlyGo join base (some bwh) rest
      else do
        let tail ← parseMasterVariantsOnlyGo join base none rest
        return (bwh.1, bwh.2, join base line) :: tail
    | none =>
      if pyStartswith line "#EXT-X-STREAM-INF" then do
        let bw ← buggyBandwidthOfLine line
        let h ← buggyHeightOfLine line
        parseMasterVariantsOnlyGo join base (some (bw, h)) rest
      else parseMasterVariantsOnlyGo join base none rest

/-- `parse_master_variants_only(content, base_url)` (lines 89–109): collects
`(bandwidth, height, uri)` triples using the two buggy doubled-backslash
patterns. -/
def parse_master_variants_only (join : String → String → String)
    (content : List String) (base_url : String) : Except String (List Variant) :=
  parseMasterVariantsOnlyGo join base_url none (stripNonEmpty content)

/-- The inline variant-collection loop of `detect_encryption_in_playlist_chain`
(lines 248–263), which uses the buggy `BANDWIDTH=(\\d+)` pattern; the inner
`while` advance over comment lines is realised by the `pending` argument as in
`resolveMasterVariantsGo`. -/
def detectMasterVariantsGo (join : String → String → String) (base : String)
    (pending : Option Nat) : List String → Except String (List (Nat × String))
  | [] => .ok []
  | line :: rest =>
    match pending with
    | some bw =>
      if pyStartswith line "#" then detectMasterVariantsGo join base (some bw) rest
      else do
        let tail ← detectMasterVariantsGo join base none rest
        return (bw, join base line) :: tail
    | none =>
      if pyStartswith line "#EXT-X-STREAM-INF" then do
        let bw ← buggyBandwidthOfLine line
        detectMasterVariantsGo join base (some bw) rest
      else detectMasterVariantsGo join base none rest

/-- See `detectMasterVariantsGo`; the loop starts with no pending stream-info
line. -/
def detectMasterVariants (join : String → String → String) (base : String)
    (lines : List String) : Except String (List (Nat × String)) :=
  detectMasterVariantsGo join base none lines

/-- `detect_encryption_in_playlist_chain(m3u8_url, headers, timeout)`
(lines 243–270): on a master playlist, pick the best variant *by the buggy
bandwidth* and probe that media playlist for encryption; on a media playlist,
probe it directly; `False` when a master playlist has no variants. -/
def detect_encryption_in_playlist_chain (join : String → String → String)
    (fetch : String → List String) (m3u8_url : String) : Except String Bool := do
  let top := fetch m3u8_url
  let lines := stripNonEmpty top
  if lines.any (fun l => pyStartswith l "#EXT-X-STREAM-INF") then do
    let variants ← detectMasterVariants join m3u8_url lines
    match chooseByBandwidth variants with
    | none => return false
    | some best => return playlist_has_encryption (fetch best.2)
  else
    return playlist_has_encryption top

/-- The variant URL that `detect_encryption_in_playlist_chain` fetches and
probes when the top playlist is a master playlist (the `best_uri` of
line 266). -/
def detectProbedUri (join : String → String → String) (base : String)
    (lines : List String) : Except String (Option String) := do
  let variants ← detectMasterVariants join base lines
  return (chooseByBandwidth variants).map (fun v => v.2)

/-- What one HTTP attempt for a URL can produce, mirroring the `try/except`
arms of `try_download` (lines 167–184): a successful body, an `HTTPError`
with a status code, a `URLError`, or any other exception. -/
inductive AttemptOutcome : Type
  | success (data : List Nat)
  | httpError (code : Nat)
  | urlError
  | otherError
deriving DecidableEq

/-- The `(ok, data, code)` triple returned by `try_download`. -/
structure DownloadResult : Type where
  ok : Bool
  data : Option (List Nat)
  code : Option Nat
deriving DecidableEq

/-- The loop of `try_download` from a given attempt number, with `fuel`
iterations of `range(retries + 1)` left.  The second component is the list of
`time.sleep` durations performed, in order (line 183:
`backoff * (2 ** attempt)`). -/
def try_download_go (outcomes : Nat → AttemptOutcome) (retries : Nat) (backoff : ℚ) :
    Nat → Nat → DownloadResult × List ℚ
  | _, 0 => (⟨false, none, none⟩, [])
  | attempt, fuel + 1 =>
    match outcomes attempt with
    | .success d => (⟨true, some d, none⟩, [])
    | .httpError c =>
      if c = 403 ∨ c = 404 then (⟨false, none, some c⟩, [])
      else if retries ≤ attempt then (⟨false, none, some c⟩, [])
      else
        let r := try_download_go outcomes retries backoff (attempt + 1) fuel
        (r.1, backoff * 2 ^ attempt :: r.2)
    | .urlError =>
      if retries ≤ attempt then (⟨false, none, none⟩, [])
      else
        let r := try_download_go outcomes retries backoff (attempt + 1) fuel
        (r.1, backoff * 2 ^ attempt :: r.2)
    | .otherError =>
      if retries ≤ attempt then (⟨false, none, none⟩, [])
      else
        let r := try_download_go outcomes retries backoff (attempt + 1) fuel
        (r.1, backoff * 2 ^ attempt :: r.2)

/-- `try_download(url, headers, timeout, retries, backoff)` (lines 167–184).
The network behaviour of the URL is the pure parameter `outcomes`, giving the
outcome of each 0-indexed attempt. -/
def try_download (outcomes : Nat → AttemptOutcome) (retries : Nat) (backoff : ℚ) :
    DownloadResult × List ℚ :=
  try_download_go outcomes retries backoff 0 (retries + 1)

/-- End state of one `download_segments_concurrent` run: the files written to
the output directory (name, bytes), the `progress["done"]` and
`progress["bytes"]` counters, and the per-index failures reported on
stderr (index, status code). -/
structure RetrieveState : Type where
  files : List (String × List Nat)
  done : Nat
  bytes : Nat
  failures : List (Nat × Option Nat)
deriving DecidableEq

/-- `download_segments_concurrent(urls, headers, timeout, retries, out_dir,
concurrency)` (lines 387–462).  Each task runs
`try_download(seg_url, headers, timeout, retries, backoff=0.5)`; on success it
writes `{index:06d}.ts` and bumps the shared counters; a failed segment is
only reported, never fatal.  Every file is written by exactly one task and the
counters are updated under a lock, so the end state does not depend on the
thread pool's interleaving; the pool is therefore modelled by a sequential
fold over `enumerate(urls)`.  `att url attempt` is the outcome of the given
attempt for the given URL. -/
def downloadStep (att : String → Nat → AttemptOutcome) (retries : Nat)
    (st : RetrieveState) (iu : Nat × String) : RetrieveState :=
  let r := (try_download (att iu.2) retries (1/2 : ℚ)).1
  if r.ok && r.data.isSome then
    { st with
      files := st.files ++ [(pad6 iu.1 ++ ".ts", r.data.getD [])]
      done := st.done + 1
      bytes := st.bytes + (r.data.getD []).length }
  else if ¬ r.ok then { st with failures := st.failures ++ [(iu.1, r.code)] }
  else st

/-- See `downloadStep`; the run folds the tasks over `enumerate(urls)` from
the empty output directory and zeroed counters. -/
def download_segments_concurrent (att : String → Nat → AttemptOutcome)
    (retries : Nat) (urls : List String) : RetrieveState :=
  urls.enum.foldl (downloadStep att retries) ⟨[], 0, 0, []⟩

/-- `len(sorted(segments_dir.glob("*.ts")))` (line 708): the number of `.ts`
files in the segment directory (`glob`'s `*` does not match names starting
with a dot). -/
def numTsFiles (st : RetrieveState) : Nat :=
  (st.files.filter (fun f => pyEndswith f.1 ".ts" && ¬ pyStartswith f.1 ".")).length

/-- The escalation test of `main` (line 709):
`len(downloaded) < max(1, int(0.8 * len(segments)))`.  `int` truncates toward
zero, and the IEEE double `0.8` is slightly *above* `4/5`, so for every
realistic segment count (`n < 2^50`) `int(0.8 * n) = 4 * n / 5` in integer
arithmetic. -/
def main_escalates_to_ffmpeg (numSegments numDownloaded : Nat) : Bool :=
  numDownloaded < max 1 (4 * numSegments / 5)

/-- The spec's escalation rule, stated over exact rationals:
`succeeded < 0.8 * attempted`. -/
def specEscalates (attempted succeeded : Nat) : Prop :=
  (succeeded : ℚ) < (4 / 5 : ℚ) * attempted

/-- Code-point comparison of strings as lists of characters — Python's `<=`
on `str` (and on `pathlib` paths of a common directory). -/
def charListLe : List Char → List Char → Bool
  | [], _ => true
  | _ :: _, [] => false
  | a :: as, b :: bs =>
    if a.toNat < b.toNat then true
    else if b.toNat < a.toNat then false
    else charListLe as bs

/-- Python `<=` on strings. -/
def strLe (a b : String) : Bool :=
  charListLe a.toList b.toList

/-- `concat_segments_to_ts(segments_dir, output_ts)` (lines 525–531):
`sorted(segments_dir.glob("*.ts"))`, error when empty, else the files' bytes
concatenated in sorted order.  The directory is its listing (file names in
arbitrary filesystem order) together with a `read` map from name to bytes. -/
def concat_segments_to_ts (listing : List String) (read : String → List Nat) :
    Except String (List Nat) :=
  let parts := List.insertionSort (fun a b => strLe a b = true)
    (listing.filter (fun n => pyEndswith n ".ts" && ¬ pyStartswith n "."))
  if parts = [] then .error "No segment files to merge"
  else .ok (parts.foldr (fun p acc => read p ++ acc) [])

/-- Spec-side height of a variant line for the refinement comparison: the
second group of the intended `RESOLUTION=(\d+)x(\d+)` pattern, when present
(the spec's "variants carry bandwidth and optional height"). -/
def heightOfLine (line : String) : Option Nat :=
  (findResolution line.toList).map (fun g => digitsToNat g.2)

/-- Spec-side variant list of a master playlist, following the spec's words:
the same stream-info traversal as `resolveMasterVariantsGo`, with each variant
carrying its declared `(bandwidth, height, uri)` — `pending` holds both the
bandwidth and the optional height of the stream-info line being closed. -/
def masterVariantsWithHeightGo (join : String → String → String) (base : String)
    (pending : Option (Nat × Option Nat)) : List String → List Variant
  | [] => []
  | line :: rest =>
    match pending with
    | some bwh =>
      if pyStartswith line "#" then masterVariantsWithHeightGo join base (some bwh) rest
      else (bwh.1, bwh.2, join base line) :: masterVariantsWithHeightGo join base none rest
    | none =>
      if pyStartswith line "#EXT-X-STREAM-INF" then
        masterVariantsWithHeightGo join base (some (bandwidthOfLine line, heightOfLine line)) rest
      else masterVariantsWithHeightGo join base none rest

/-- See `masterVariantsWithHeightGo`; the scan starts with no pending
stream-info line. -/
def masterVariantsWithHeight (join : String → String → String) (base : String)
    (lines : List String) : List Variant :=
  masterVariantsWithHeightGo join base none lines

/-- Spec-side reading of a key directive's `METHOD` field: the text after the
first occurrence of `METHOD=`, up to the next comma. -/
def findMethodValue : List Char → Option (List Char)
  | [] => none
  | c :: cs =>
    if ("METHOD=".toList).isPrefixOf (c :: cs) then
      some (((c :: cs).drop 7).takeWhile (fun ch => ch ≠ ','))
    else findMethodValue cs

/-- Spec-side encryption predicate, following the spec's words: some key
directive line whose method field is present and not equal to `NONE`. -/
def specKeyMethodEncrypted (content : List String) : Bool :=
  content.any (fun line =>
    pyStartswith (pyStrip line) "#EXT-X-KEY" &&
      match findMethodValue line.toList with
      | some m => m.asString != "NONE"
      | none => false)

/-- A concrete absolutiser instantiating the `urljoin` parameter in concrete
runs. -/
def joinConcat (base rel : String) : String := base ++ "/" ++ rel

/-- Whether `try_download` treats an attempt's outcome as retriable (neither
success nor a 403/404 `HTTPError`). -/
def retriableOutcome : AttemptOutcome → Bool
  | .success _ => false
  | .httpError c => ¬(c = 403 ∨ c = 404)
  | .urlError => true
  | .otherError => true

/-- The status code `try_download` reports for an attempt's outcome. -/
def httpCodeOf : AttemptOutcome → Option Nat
  | .httpError c => some c
  | _ => none

instance exceptDecEq {ε α : Type} [DecidableEq ε] [DecidableEq α] :
    DecidableEq (Except ε α) := by
  intro a b
  cases a <;> cases b
  case error.error e1 e2 => exact decidable_of_iff (e1 = e2) (by simp)
  case ok.ok v1 v2 => exact decidable_of_iff (v1 = v2) (by simp)
  all_goals exact isFalse (by simp)

theorem string_toList_inj {a b : String} (h : a.toList = b.toList) : a = b := by
  cases a; cases b; exact congrArg String.mk h

theorem pyFoldMaxNat_keep {α : Type} (key : α → Nat) (x : α) (xs : List α)
    (h : ∀ y ∈ xs, ¬ key x < key y) :
    xs.foldl (fun best y => if key best < key y then y else best) x = x := by
  induction xs with
  | nil => rfl
  | cons y ys ih =>
    simp only [List.foldl_cons]
    rw [if_neg (h y (by simp))]
    exact ih (fun z hz => h z (by simp [hz]))

theorem pyFoldMaxPair_keep {α : Type} (key : α → Nat × Nat) (x : α) (xs : List α)
    (h : ∀ y ∈ xs, pairLt (key x) (key y) = false) :
    xs.foldl (fun best y => if pairLt (key best) (key y) then y else best) x = x := by
  induction xs with
  | nil => rfl
  | cons y ys ih =>
    simp only [List.foldl_cons]
    rw [if_neg (by rw [h y (by simp)]; simp)]
    exact ih (fun z hz => h z (by simp [hz]))

theorem foldlMaxNat_map {α β : Type} (key : β → Nat) (f : α → β) (xs : List α) :
    ∀ x : α,
      (xs.map f).foldl (fun best y => if key best < key y then y else best) (f x)
        = f (xs.foldl (fun best a => if key (f best) < key (f a) then a else best) x) := by
  induction xs with
  | nil => intro x; rfl
  | cons y ys ih =>
    intro x
    simp only [List.map_cons, List.foldl_cons]
    by_cases h : key (f x) < key (f y)
    · rw [if_pos h, if_pos h, ih]
    · rw [if_neg h, if_neg h, ih]

theorem foldlMaxPair_map {α β : Type} (key : β → Nat × Nat) (f : α → β) (xs : List α) :
    ∀ x : α,
      (xs.map f).foldl (fun best y => if pairLt (key best) (key y) then y else best) (f x)
        = f (xs.foldl (fun best a => if pairLt (key (f best)) (key (f a)) then a else best) x) := by
  induction xs with
  | nil => intro x; rfl
  | cons y ys ih =>
    intro x
    simp only [List.map_cons, List.foldl_cons]
    by_cases h : pairLt (key (f x)) (key (f y)) = true
    · rw [if_pos h, if_pos h, ih]
    · rw [if_neg h, if_neg h, ih]

theorem pairLt_zero_snd (a b : Nat) : pairLt (a, 0) (b, 0) = decide (a < b) := by
  simp [pairLt]

theorem foldlMaxNat_eq_pairZero {α : Type} (key : α → Nat) (xs : List α) (x : α) :
    xs.foldl (fun best y => if key best < key y then y else best) x
      = xs.foldl (fun best y => if pairLt (key best, 0) (key y, 0) then y else best) x := by
  have hfun : (fun (best y : α) => if pairLt (key best, 0) (key y, 0) = true then y else best)
      = (fun (best y : α) => if key best < key y then y else best) := by
    funext best y
    rw [pairLt_zero_snd]
    by_cases h : key best < key y
    · rw [if_pos h, if_pos (by simpa using h)]
    · rw [if_neg h, if_neg (by simpa using h)]
  rw [hfun]

theorem resolveMasterVariantsGo_eq_proj (join : String → String → String) (base : String)
    (lines : List String) :
    ∀ pending : Option (Nat × Option Nat),
      resolveMasterVariantsGo join base (pending.map (fun p => p.1)) lines
        = (masterVariantsWithHeightGo join base pending lines).map (fun v => (v.1, v.2.2)) := by
  induction lines with
  | nil => intro pending; cases pending <;> rfl
  | cons line rest ih =>
    intro pending
    cases pending with
    | none =>
      by_cases h : pyStartswith line "#EXT-X-STREAM-INF"
      · simpa only [Option.map_none', resolveMasterVariantsGo, masterVariantsWithHeightGo, h,
          if_true, Option.map_some'] using ih (some (bandwidthOfLine line, heightOfLine line))
      · simpa only [Option.map_none', resolveMasterVariantsGo, masterVariantsWithHeightGo, h,
          if_false, Bool.false_eq_true] using ih none
    | some bwh =>
      by_cases h : pyStartswith line "#"
      · simpa only [Option.map_some', resolveMasterVariantsGo, masterVariantsWithHeightGo, h,
          if_true] using ih (some bwh)
      · simp only [Option.map_some', resolveMasterVariantsGo, masterVariantsWithHeightGo, h,
          if_false, Bool.false_eq_true, List.map_cons]
        exact congrArg _ (by simpa only [Option.map_none'] using ih none)

theorem resolveMasterVariants_eq_proj (join : String → String → String) (base : String)
    (lines : List String) :
    resolveMasterVariants join base lines
      = (masterVariantsWithHeight join base lines).map (fun v => (v.1, v.2.2)) :=
  resolveMasterVariantsGo_eq_proj join base lines none

theorem pyMaxBy_map {α β : Type} (key : β → Nat) (f : α → β) (l : List α) :
    pyMaxBy key (l.map f) = (pyMaxBy (fun a => key (f a)) l).map f := by
  cases l with
  | nil => rfl
  | cons x xs =>
    simp only [List.map_cons, pyMaxBy, Option.map_some']
    exact congrArg some (foldlMaxNat_map key f xs x)

theorem pyMaxByPair_map {α β : Type} (key : β → Nat × Nat) (f : α → β) (l : List α) :
    pyMaxByPair key (l.map f) = (pyMaxByPair (fun a => key (f a)) l).map f := by
  cases l with
  | nil => rfl
  | cons x xs =>
    simp only [List.map_cons, pyMaxByPair, Option.map_some']
    exact congrArg some (foldlMaxPair_map key f xs x)

theorem pyMaxBy_eq_pairZero {α : Type} (key : α → Nat) (l : List α) :
    pyMaxBy key l = pyMaxByPair (fun a => (key a, 0)) l := by
  cases l with
  | nil => rfl
  | cons x xs => exact congrArg some (foldlMaxNat_eq_pairZero key xs x)

/-- C1 (counterexample): on a master playlist with two variants of equal
bandwidth 1200 and heights 720 and 1080, `resolve_segments_from_m3u8` fetches
the first variant while `choose_variant_best` over the height-carrying
variants picks the second, so the claimed agreement fails. -/
theorem resolveChosenUri_ne_choose_variant_best :
    resolveChosenUri joinConcat "http://h/m.m3u8"
        ["#EXT-X-STREAM-INF:BANDWIDTH=1200,RESOLUTION=640x720", "u1.m3u8",
         "#EXT-X-STREAM-INF:BANDWIDTH=1200,RESOLUTION=1920x1080", "u2.m3u8"]
      = some "http://h/m.m3u8/u1.m3u8" ∧
    choose_variant_best (masterVariantsWithHeight joinConcat "http://h/m.m3u8"
        ["#EXT-X-STREAM-INF:BANDWIDTH=1200,RESOLUTION=640x720", "u1.m3u8",
         "#EXT-X-STREAM-INF:BANDWIDTH=1200,RESOLUTION=1920x1080", "u2.m3u8"])
      = some "http://h/m.m3u8/u2.m3u8" ∧
    resolveChosenUri joinConcat "http://h/m.m3u8"
        ["#EXT-X-STREAM-INF:BANDWIDTH=1200,RESOLUTION=640x720", "u1.m3u8",
         "#EXT-X-STREAM-INF:BANDWIDTH=1200,RESOLUTION=1920x1080", "u2.m3u8"]
      ≠ choose_variant_best (masterVariantsWithHeight joinConcat "http://h/m.m3u8"
        ["#EXT-X-STREAM-INF:BANDWIDTH=1200,RESOLUTION=640x720", "u1.m3u8",
         "#EXT-X-STREAM-INF:BANDWIDTH=1200,RESOLUTION=1920x1080", "u2.m3u8"]) := by
  refine ⟨by decide, by decide, by decide⟩

/-- C1 (amended): for every master playlist, the variant URL that
`resolve_segments_from_m3u8` fetches is exactly the one `choose_variant_best`
would pick *with every height disregarded* (treated as absent): the selection
maximises bandwidth alone, first occurrence winning ties; with heights present
the two picks can differ on bandwidth ties. -/
theorem resolveChosenUri_eq_choose_variant_best_heightless
    (join : String → String → String) (base : String) (lines : List String) :
    resolveChosenUri join base lines
      = choose_variant_best ((masterVariantsWithHeight join base lines).map
          (fun v => (v.1, (none : Option Nat), v.2.2))) := by
  unfold resolveChosenUri choose_variant_best chooseByBandwidth
  rw [resolveMasterVariants_eq_proj join base lines]
  rw [pyMaxBy_map (fun v => v.1) (fun v : Variant => (v.1, v.2.2))]
  rw [pyMaxByPair_map (fun v => (v.1, v.2.1.getD 0)) (fun v : Variant => (v.1, none, v.2.2))]
  rw [Option.map_map, Option.map_map]
  rw [pyMaxBy_eq_pairZero]
  rfl

/-- C6: `choose_variant_best` is a pure function, hence deterministic and
idempotent across calls (the same variant list always yields the same
variant); on the example variants `[(500,480),(1200,720),(1200,1080)]` it
returns the `(1200,1080)` entry; and the first occurrence wins: a leading
variant whose `(bandwidth, height-or-zero)` key is not strictly exceeded by
any later variant's key — in particular one tied with every maximal key — is
the one selected. -/
theorem choose_variant_best_deterministic :
    (∀ variants : List Variant, choose_variant_best variants = choose_variant_best variants) ∧
    choose_variant_best [(500, some 480, "u480"), (1200, some 720, "u720"),
        (1200, some 1080, "u1080")] = some "u1080" ∧
    (∀ (v : Variant) (vs : List Variant),
        (∀ w ∈ vs, pairLt (v.1, v.2.1.getD 0) (w.1, w.2.1.getD 0) = false) →
        choose_variant_best (v :: vs) = some v.2.2) := by
  refine ⟨fun _ => rfl, by decide, ?_⟩
  intro v vs h
  simp only [choose_variant_best, pyMaxByPair]
  rw [pyFoldMaxPair_keep (fun v : Variant => (v.1, v.2.1.getD 0)) v vs h]
  rfl

theorem choose_variant_best_deterministic_witness :
    choose_variant_best [(1200, some 720, "a"), (1200, some 720, "b")] = some "a" :=
  choose_variant_best_deterministic.2.2 (1200, some 720, "a") [(1200, some 720, "b")]
    (by decide)

/-- C5: on a media playlist (no stream-info line among the normalised lines),
`parse_m3u8` returns exactly the non-comment non-empty lines, in encounter
order, each absolutised against the base URI via `urljoin`, and fails with
the malformed-playlist error exactly when no such line exists. -/
theorem parse_m3u8_media_exact (join : String → String → String)
    (content : List String) (base_url : String)
    (hmedia : ∀ l ∈ stripNonEmpty content,
      pyStartswith l "#EXT-X-STREAM-INF" = false) :
    parse_m3u8 join content base_url =
      if ((stripNonEmpty content).filter (fun l => ¬ pyStartswith l "#")).length = 0 then
        .error "No segments found in playlist"
      else
        .ok (((stripNonEmpty content).filter (fun l => ¬ pyStartswith l "#")).map
          (fun l => join base_url l)) := by
  have hany : (stripNonEmpty content).any (fun l => pyStartswith l "#EXT-X-STREAM-INF") = false := by
    rw [List.any_eq_false]
    intro x hx
    simp [hmedia x hx]
  unfold parse_m3u8
  simp only [hany, Bool.false_eq_true, if_false]
  by_cases hN : (stripNonEmpty content).filter (fun l => ¬ pyStartswith l "#") = []
  · simp [hN]
  · simp [hN, List.length_eq_zero]

theorem parse_m3u8_media_exact_witness :
    parse_m3u8 joinConcat ["#EXTM3U", "a.ts", "", "b.ts"] "http://b" =
      .ok ["http://b/a.ts", "http://b/b.ts"] := by
  have h := parse_m3u8_media_exact joinConcat ["#EXTM3U", "a.ts", "", "b.ts"] "http://b"
    (by decide)
  rw [h]
  decide

/-- C4 (counterexample): a key-directive line carrying no `METHOD` attribute
at all — `#EXT-X-KEY:URI="k"` — is reported encrypted by
`playlist_has_encryption`, while the claimed characterisation ("method field
present and not equal to NONE") does not hold of it, so the claimed
equivalence fails. -/
theorem playlist_has_encryption_method_cx :
    playlist_has_encryption ["#EXT-X-KEY:URI=\"k\""] = true ∧
    specKeyMethodEncrypted ["#EXT-X-KEY:URI=\"k\""] = false :=
  ⟨by decide, by decide⟩

/-- C4 (amended): `playlist_has_encryption` is true iff some line, once
stripped, starts with `#EXT-X-KEY` and the raw line does not contain the
substring `METHOD=NONE`; in particular a playlist with a `METHOD=AES-128`
key directive is reported encrypted, and one whose key directive carries
`METHOD=NONE`, or with no key directive at all, is not. -/
theorem playlist_has_encryption_characterisation :
    (∀ content : List String,
        playlist_has_encryption content = true ↔
          ∃ line ∈ content, pyStartswith (pyStrip line) "#EXT-X-KEY" = true ∧
            pyContains line "METHOD=NONE" = false) ∧
    playlist_has_encryption ["#EXTM3U", "#EXT-X-KEY:METHOD=AES-128,URI=\"k\"", "seg0.ts"]
      = true ∧
    playlist_has_encryption ["#EXTM3U", "#EXT-X-KEY:METHOD=NONE", "seg0.ts"] = false ∧
    playlist_has_encryption ["#EXTM3U", "seg0.ts"] = false := by
  refine ⟨?_, by decide, by decide, by decide⟩
  intro content
  simp [playlist_has_encryption, List.any_eq_true, Bool.and_eq_true, decide_eq_true_eq,
    Bool.not_eq_true]

/-- C7: when the top playlist is a master playlist and the playlist fetched
from the chosen variant URL again contains a stream-info line,
`resolve_segments_from_m3u8` fails with the master-playlist error instead of
recursing — only one master-to-variant hop is ever followed. -/
theorem resolve_single_hop (join : String → String → String)
    (fetch : String → List String) (m3u8_url : String) (best : Nat × String)
    (htop : (stripNonEmpty (fetch m3u8_url)).any
        (fun l => pyStartswith l "#EXT-X-STREAM-INF") = true)
    (hbest : chooseByBandwidth (resolveMasterVariants join m3u8_url
        (stripNonEmpty (fetch m3u8_url))) = some best)
    (hnested : (stripNonEmpty (fetch best.2)).any
        (fun l => pyStartswith l "#EXT-X-STREAM-INF") = true) :
    resolve_segments_from_m3u8 join fetch m3u8_url =
      .error "Master playlist provided; use resolve_segments_from_m3u8() that preserves headers" := by
  unfold resolve_segments_from_m3u8
  simp only [htop, if_true, hbest]
  unfold parse_m3u8
  simp only [hnested, if_true]

theorem resolve_single_hop_witness :
    resolve_segments_from_m3u8 joinConcat
      (fun u => if u = "m/v" then ["#EXT-X-STREAM-INF:BANDWIDTH=1", "w"]
        else ["#EXT-X-STREAM-INF:BANDWIDTH=100", "v"]) "m" =
      .error "Master playlist provided; use resolve_segments_from_m3u8() that preserves headers" :=
  resolve_single_hop joinConcat
    (fun u => if u = "m/v" then ["#EXT-X-STREAM-INF:BANDWIDTH=1", "w"]
      else ["#EXT-X-STREAM-INF:BANDWIDTH=100", "v"]) "m" (100, "m/v")
    (by decide) (by decide) (by decide)

theorem range_map_pow_succ (backoff : ℚ) (attempt n : Nat) :
    backoff * 2 ^ attempt ::
        (List.range n).map (fun k => backoff * 2 ^ (attempt + 1 + k))
      = (List.range (n + 1)).map (fun k => backoff * 2 ^ (attempt + k)) := by
  rw [List.range_succ_eq_map]
  simp only [List.map_cons, List.map_map, Nat.add_zero]
  refine congrArg₂ List.cons rfl ?_
  refine List.map_congr_left (fun k _ => ?_)
  simp only [Function.comp_apply]
  rw [show attempt + Nat.succ k = attempt + 1 + k by omega]

theorem try_download_go_exhaust (outcomes : Nat → AttemptOutcome) (retries : Nat)
    (backoff : ℚ) :
    ∀ (fuel attempt : Nat), attempt + fuel = retries + 1 → attempt ≤ retries →
      (∀ i, attempt ≤ i → i ≤ retries → retriableOutcome (outcomes i) = true) →
      try_download_go outcomes retries backoff attempt fuel =
        (⟨false, none, httpCodeOf (outcomes retries)⟩,
          (List.range (retries - attempt)).map (fun k => backoff * 2 ^ (attempt + k))) := by
  intro fuel
  induction fuel with
  | zero => intro attempt hsum hle _; omega
  | succ fuel ih =>
    intro attempt hsum hle hret
    have hcur : retriableOutcome (outcomes attempt) = true := hret attempt le_rfl hle
    rcases hatt : outcomes attempt with d | c | _ | _
    case success => rw [hatt] at hcur; simp [retriableOutcome] at hcur
    case httpError =>
      rw [hatt] at hcur
      have hc : ¬ (c = 403 ∨ c = 404) := by simpa [retriableOutcome] using hcur
      by_cases heq : attempt = retries
      · subst heq
        simp only [try_download_go, hatt]
        rw [if_neg hc, if_pos le_rfl]
        simp [hatt, httpCodeOf]
      · have hlt : attempt < retries := lt_of_le_of_ne hle heq
        simp only [try_download_go, hatt]
        rw [if_neg hc, if_neg (by omega)]
        rw [ih (attempt + 1) (by omega) (by omega) (fun i h1 h2 => hret i (by omega) h2)]
        have hrn : retries - attempt = (retries - (attempt + 1)) + 1 := by omega
        rw [hrn, ← range_map_pow_succ backoff attempt (retries - (attempt + 1))]
    case urlError =>
      by_cases heq : attempt = retries
      · subst heq
        simp only [try_download_go, hatt]
        rw [if_pos le_rfl]
        simp [hatt, httpCodeOf]
      · have hlt : attempt < retries := lt_of_le_of_ne hle heq
        simp only [try_download_go, hatt]
        rw [if_neg (by omega)]
        rw [ih (attempt + 1) (by omega) (by omega) (fun i h1 h2 => hret i (by omega) h2)]
        have hrn : retries - attempt = (retries - (attempt + 1)) + 1 := by omega
        rw [hrn, ← range_map_pow_succ backoff attempt (retries - (attempt + 1))]
    case otherError =>
      by_cases heq : attempt = retries
      · subst heq
        simp only [try_download_go, hatt]
        rw [if_pos le_rfl]
        simp [hatt, httpCodeOf]
      · have hlt : attempt < retries := lt_of_le_of_ne hle heq
        simp only [try_download_go, hatt]
        rw [if_neg (by omega)]
        rw [ih (attempt + 1) (by omega) (by omega) (fun i h1 h2 => hret i (by omega) h2)]
        have hrn : retries - attempt = (retries - (attempt + 1)) + 1 := by omega
        rw [hrn, ← range_map_pow_succ backoff attempt (retries - (attempt + 1))]

theorem try_download_go_success (outcomes : Nat → AttemptOutcome) (retries : Nat)
    (backoff : ℚ) (j : Nat) (d : List Nat) :
    ∀ (fuel attempt : Nat), attempt + fuel = retries + 1 → attempt ≤ j → j ≤ retries →
      (∀ i, attempt ≤ i → i < j → retriableOutcome (outcomes i) = true) →
      outcomes j = .success d →
      try_download_go outcomes retries backoff attempt fuel =
        (⟨true, some d, none⟩,
          (List.range (j - attempt)).map (fun k => backoff * 2 ^ (attempt + k))) := by
  intro fuel
  induction fuel with
  | zero => intro attempt hsum hlej hjr _ _; omega
  | succ fuel ih =>
    intro attempt hsum hlej hjr hret hj
    by_cases heq : attempt = j
    · subst heq
      simp only [try_download_go, hj]
      simp
    · have hlt : attempt < j := lt_of_le_of_ne hlej heq
      have hcur : retriableOutcome (outcomes attempt) = true := hret attempt le_rfl hlt
      rcases hatt : outcomes attempt with d' | c | _ | _
      · rw [hatt] at hcur; simp [retriableOutcome] at hcur
      · rw [hatt] at hcur
        have hc : ¬ (c = 403 ∨ c = 404) := by simpa [retriableOutcome] using hcur
        simp only [try_download_go, hatt]
        rw [if_neg hc, if_neg (by omega)]
        rw [ih (attempt + 1) (by omega) (by omega) (by omega)
          (fun i h1 h2 => hret i (by omega) h2) hj]
        have hrn : j - attempt = (j - (attempt + 1)) + 1 := by omega
        rw [hrn, ← range_map_pow_succ backoff attempt (j - (attempt + 1))]
      · simp only [try_download_go, hatt]
        rw [if_neg (by omega)]
        rw [ih (attempt + 1) (by omega) (by omega) (by omega)
          (fun i h1 h2 => hret i (by omega) h2) hj]
        have hrn : j - attempt = (j - (attempt + 1)) + 1 := by omega
        rw [hrn, ← range_map_pow_succ backoff attempt (j - (attempt + 1))]
      · simp only [try_download_go, hatt]
        rw [if_neg (by omega)]
        rw [ih (attempt + 1) (by omega) (by omega) (by omega)
          (fun i h1 h2 => hret i (by omega) h2) hj]
        have hrn : j - attempt = (j - (attempt + 1)) + 1 := by omega
        rw [hrn, ← range_map_pow_succ backoff attempt (j - (attempt + 1))]

theorem try_download_go_fatal (outcomes : Nat → AttemptOutcome) (retries : Nat)
    (backoff : ℚ) (j c : Nat) :
    ∀ (fuel attempt : Nat), attempt + fuel = retries + 1 → attempt ≤ j → j ≤ retries →
      (∀ i, attempt ≤ i → i < j → retriableOutcome (outcomes i) = true) →
      outcomes j = .httpError c → c = 403 ∨ c = 404 →
      try_download_go outcomes retries backoff attempt fuel =
        (⟨false, none, some c⟩,
          (List.range (j - attempt)).map (fun k => backoff * 2 ^ (attempt + k))) := by
  intro fuel
  induction fuel with
  | zero => intro attempt hsum hlej hjr _ _ _; omega
  | succ fuel ih =>
    intro attempt hsum hlej hjr hret hj hc
    by_cases heq : attempt = j
    · subst heq
      simp only [try_download_go, hj]
      rw [if_pos hc]
      simp
    · have hlt : attempt < j := lt_of_le_of_ne hlej heq
      have hcur : retriableOutcome (outcomes attempt) = true := hret attempt le_rfl hlt
      rcases hatt : outcomes attempt with d' | c' | _ | _
      · rw [hatt] at hcur; simp [retriableOutcome] at hcur
      · rw [hatt] at hcur
        have hc' : ¬ (c' = 403 ∨ c' = 404) := by simpa [retriableOutcome] using hcur
        simp only [try_download_go, hatt]
        rw [if_neg hc', if_neg (by omega)]
        rw [ih (attempt + 1) (by omega) (by omega) (by omega)
          (fun i h1 h2 => hret i (by omega) h2) hj hc]
        have hrn : j - attempt = (j - (attempt + 1)) + 1 := by omega
        rw [hrn, ← range_map_pow_succ backoff attempt (j - (attempt + 1))]
      · simp only [try_download_go, hatt]
        rw [if_neg (by omega)]
        rw [ih (attempt + 1) (by omega) (by omega) (by omega)
          (fun i h1 h2 => hret i (by omega) h2) hj hc]
        have hrn : j - attempt = (j - (attempt + 1)) + 1 := by omega
        rw [hrn, ← range_map_pow_succ backoff attempt (j - (attempt + 1))]
      · simp only [try_download_go, hatt]
        rw [if_neg (by omega)]
        rw [ih (attempt + 1) (by omega) (by omega) (by omega)
          (fun i h1 h2 => hret i (by omega) h2) hj hc]
        have hrn : j - attempt = (j - (attempt + 1)) + 1 := by omega
        rw [hrn, ← range_map_pow_succ backoff attempt (j - (attempt + 1))]

/-- C3: the retry policy of `try_download`: (1) an HTTP 403/404 at the first
non-retriable attempt returns failure with that status immediately, with no
further retry (and no further sleep); (2) when every attempt through
`retries` fails with a retriable HTTP or transport error, the loop performs
all `retries` additional attempts, sleeping `backoff * 2 ^ attempt` before
each retry (attempt 0-indexed), and reports failure with the status of the
final attempt (its HTTP status, or none for a transport error); (3) a success
at attempt `j ≤ retries` after retriable failures returns the data; in
particular a segment answering 500, 500, then 200 succeeds when
`retries = 2` and fails with status 500 when `retries = 1`. -/
theorem try_download_retry_policy :
    (∀ (outcomes : Nat → AttemptOutcome) (retries : Nat) (backoff : ℚ) (j c : Nat),
        j ≤ retries → (∀ i, i < j → retriableOutcome (outcomes i) = true) →
        outcomes j = .httpError c → c = 403 ∨ c = 404 →
        try_download outcomes retries backoff =
          (⟨false, none, some c⟩, (List.range j).map (fun k => backoff * 2 ^ k))) ∧
    (∀ (outcomes : Nat → AttemptOutcome) (retries : Nat) (backoff : ℚ),
        (∀ i, i ≤ retries → retriableOutcome (outcomes i) = true) →
        try_download outcomes retries backoff =
          (⟨false, none, httpCodeOf (outcomes retries)⟩,
            (List.range retries).map (fun k => backoff * 2 ^ k))) ∧
    (∀ (outcomes : Nat → AttemptOutcome) (retries : Nat) (backoff : ℚ) (j : Nat)
        (d : List Nat),
        j ≤ retries → (∀ i, i < j → retriableOutcome (outcomes i) = true) →
        outcomes j = .success d →
        try_download outcomes retries backoff =
          (⟨true, some d, none⟩, (List.range j).map (fun k => backoff * 2 ^ k))) ∧
    (∀ d : List Nat,
        try_download (fun i => if i < 2 then .httpError 500 else .success d) 2 (1/2)
          = (⟨true, some d, none⟩, [1/2, 1])) ∧
    try_download (fun i => if i < 2 then .httpError 500 else .success []) 1 (1/2)
      = (⟨false, none, some 500⟩, [1/2]) := by
  refine ⟨?_, ?_, ?_, ?_, ?_⟩
  · intro outcomes retries backoff j c hj hret hout hc
    have h := try_download_go_fatal outcomes retries backoff j c (retries + 1) 0 (by omega)
      (by omega) hj (fun i _ h2 => hret i h2) hout hc
    simpa [try_download, Nat.zero_add] using h
  · intro outcomes retries backoff hret
    have h := try_download_go_exhaust outcomes retries backoff (retries + 1) 0 (by omega)
      (by omega) (fun i _ h2 => hret i h2)
    simpa [try_download, Nat.zero_add] using h
  · intro outcomes retries backoff j d hj hret hout
    have h := try_download_go_success outcomes retries backoff j d (retries + 1) 0 (by omega)
      (by omega) hj (fun i _ h2 => hret i h2) hout
    simpa [try_download, Nat.zero_add] using h
  · intro d
    have h := try_download_go_success (fun i => if i < 2 then .httpError 500 else .success d)
      2 (1/2) 2 d (2 + 1) 0 (by omega) (by omega) (by omega)
      (fun i _ h2 => by
        show retriableOutcome
          (if i < 2 then AttemptOutcome.httpError 500 else AttemptOutcome.success d) = true
        rw [if_pos h2]
        decide) (by simp)
    have h' : try_download (fun i => if i < 2 then .httpError 500 else .success d) 2 (1/2) =
        (⟨true, some d, none⟩, (List.range 2).map (fun k => (1/2 : ℚ) * 2 ^ (0 + k))) := h
    rw [h']
    simp [List.range_succ]
  · have h := try_download_go_exhaust (fun i => if i < 2 then .httpError 500 else .success [])
      1 (1/2) (1 + 1) 0 (by omega) (by omega)
      (fun i _ h2 => by
        have hi : i < 2 := by omega
        show retriableOutcome
          (if i < 2 then AttemptOutcome.httpError 500 else AttemptOutcome.success []) = true
        rw [if_pos hi]
        decide)
    have h' : try_download (fun i => if i < 2 then .httpError 500 else .success []) 1 (1/2) =
        (⟨false, none, httpCodeOf (if 1 < 2 then .httpError 500 else .success [])⟩,
          (List.range 1).map (fun k => (1/2 : ℚ) * 2 ^ (0 + k))) := h
    rw [h']
    simp [httpCodeOf, List.range_succ]

theorem try_download_retry_policy_witness :
    try_download (fun _ => AttemptOutcome.httpError 403) 3 1 = (⟨false, none, some 403⟩, []) := by
  have h := try_download_retry_policy.1 (fun _ => AttemptOutcome.httpError 403) 3 1 0 403
    (by omega) (fun i hi => absurd hi (by omega)) rfl (Or.inl rfl)
  simpa using h

theorem pyEndswith_append (s t : String) : pyEndswith (s ++ t) t = true := by
  unfold pyEndswith
  rw [List.isSuffixOf_iff_suffix]
  show t.toList <:+ s.toList ++ t.toList
  exact List.suffix_append _ _

theorem digitChar_ne_dot (r : Nat) : digitChar r ≠ '.' := by
  unfold digitChar
  split <;> decide

theorem mem_natDigitsAux_ne_dot :
    ∀ (fuel n : Nat) (c : Char), c ∈ natDigitsAux fuel n → c ≠ '.'
  | 0, n, c => by simp [natDigitsAux]
  | fuel + 1, n, c => by
    simp only [natDigitsAux]
    by_cases h : n = 0
    · simp [h]
    · simp only [h, if_false, Bool.false_eq_true]
      intro hmem
      rcases List.mem_cons.mp hmem with rfl | hmem'
      · exact digitChar_ne_dot _
      · exact mem_natDigitsAux_ne_dot fuel (n / 10) c hmem'

theorem natDecimal_ne_nil (n : Nat) : natDecimal n ≠ [] := by
  unfold natDecimal
  by_cases h : n = 0
  · simp [h]
  · simp only [h, if_false, Bool.false_eq_true, ne_eq, List.reverse_eq_nil_iff]
    rw [natDigitsAux]
    simp [h]

theorem mem_padList_ne_dot (i : Nat) (c : Char)
    (h : c ∈ List.replicate (6 - (natDecimal i).length) '0' ++ natDecimal i) :
    c ≠ '.' := by
  rcases List.mem_append.mp h with h1 | h2
  · rw [List.eq_of_mem_replicate h1]; decide
  · unfold natDecimal at h2
    by_cases h0 : i = 0
    · simp [h0] at h2
      rw [h2]; decide
    · simp only [h0, if_false, Bool.false_eq_true, List.mem_reverse] at h2
      exact mem_natDigitsAux_ne_dot _ _ _ h2

theorem pyStartswith_pad6_dot (i : Nat) : pyStartswith (pad6 i ++ ".ts") "." = false := by
  unfold pyStartswith
  have hpad_ne : (List.replicate (6 - (natDecimal i).length) '0' ++ natDecimal i) ≠ [] := by
    simp [natDecimal_ne_nil i]
  cases hpl : List.replicate (6 - (natDecimal i).length) '0' ++ natDecimal i with
  | nil => exact absurd hpl hpad_ne
  | cons c0 t0 =>
    have hc0 : c0 ≠ '.' :=
      mem_padList_ne_dot i c0 (by rw [hpl]; exact List.mem_cons_self _ _)
    have htl : (pad6 i ++ ".ts").toList = c0 :: (t0 ++ ".ts".toList) := by
      show (pad6 i).toList ++ ".ts".toList = _
      rw [show (pad6 i).toList
          = List.replicate (6 - (natDecimal i).length) '0' ++ natDecimal i from rfl, hpl]
      rfl
    rw [htl]
    show (('.' == c0) && List.isPrefixOf [] (t0 ++ ".ts".toList)) = false
    have : ('.' == c0) = false := beq_eq_false_iff_ne.mpr (Ne.symm hc0)
    rw [this]
    rfl

theorem pad6_glob_ok (i : Nat) :
    (pyEndswith (pad6 i ++ ".ts") ".ts" && ¬ pyStartswith (pad6 i ++ ".ts") ".") = true := by
  rw [pyEndswith_append, pyStartswith_pad6_dot]
  decide

theorem downloadStep_inv (att : String → Nat → AttemptOutcome) (retries : Nat)
    (st : RetrieveState) (iu : Nat × String)
    (h1 : ∀ f ∈ st.files, (pyEndswith f.1 ".ts" && ¬ pyStartswith f.1 ".") = true)
    (h2 : st.files.length = st.done) :
    (∀ f ∈ (downloadStep att retries st iu).files,
        (pyEndswith f.1 ".ts" && ¬ pyStartswith f.1 ".") = true) ∧
    (downloadStep att retries st iu).files.length = (downloadStep att retries st iu).done := by
  simp only [downloadStep]
  split
  · refine ⟨?_, by simp [h2]⟩
    intro f hf
    rcases List.mem_append.mp hf with h | h
    · exact h1 f h
    · rw [List.mem_singleton.mp h]
      exact pad6_glob_ok iu.1
  · split
    · exact ⟨h1, by simpa using h2⟩
    · exact ⟨h1, h2⟩

theorem downloadStep_foldl_inv (att : String → Nat → AttemptOutcome) (retries : Nat) :
    ∀ (l : List (Nat × String)) (st : RetrieveState),
      (∀ f ∈ st.files, (pyEndswith f.1 ".ts" && ¬ pyStartswith f.1 ".") = true) →
      st.files.length = st.done →
      (∀ f ∈ (l.foldl (downloadStep att retries) st).files,
          (pyEndswith f.1 ".ts" && ¬ pyStartswith f.1 ".") = true) ∧
      (l.foldl (downloadStep att retries) st).files.length
        = (l.foldl (downloadStep att retries) st).done := by
  intro l
  induction l with
  | nil => intro st hI1 hI2; exact ⟨hI1, hI2⟩
  | cons iu l ih =>
    intro st hI1 hI2
    simp only [List.foldl_cons]
    have hstep := downloadStep_inv att retries st iu hI1 hI2
    exact ih _ hstep.1 hstep.2

theorem numTsFiles_eq_done (att : String → Nat → AttemptOutcome) (retries : Nat)
    (urls : List String) :
    numTsFiles (download_segments_concurrent att retries urls)
      = (download_segments_concurrent att retries urls).done := by
  have h := downloadStep_foldl_inv att retries urls.enum ⟨[], 0, 0, []⟩
    (by intro f hf; simp at hf) (by simp)
  unfold numTsFiles download_segments_concurrent
  rw [List.filter_eq_self.mpr h.1]
  exact h.2

/-- C2 (counterexample): a full manual run over 9 segments of which 7 produce
files.  The spec's rule `succeeded < 0.8 * attempted` holds (7 < 7.2), yet
the code's test `len(downloaded) < max(1, int(0.8 * len(segments)))` — i.e.
`7 < max(1, 7)` — is false, so the code assembles instead of escalating:
the claimed if-and-only-if fails. -/
theorem main_escalation_threshold_cx :
    numTsFiles (download_segments_concurrent
        (fun u _ => if u = "s7" ∨ u = "s8" then AttemptOutcome.httpError 404
          else AttemptOutcome.success [0]) 3
        ["s0", "s1", "s2", "s3", "s4", "s5", "s6", "s7", "s8"]) = 7 ∧
    (["s0", "s1", "s2", "s3", "s4", "s5", "s6", "s7", "s8"] : List String).length = 9 ∧
    specEscalates 9 7 ∧
    main_escalates_to_ffmpeg 9 7 = false := by
  refine ⟨by decide, by decide, ?_, by decide⟩
  show (7 : ℚ) < (4 / 5 : ℚ) * 9
  norm_num

/-- C2 (amended): after a full `download_segments_concurrent` run, `main`
escalates to the ffmpeg fallback iff the number of `.ts` files in the segment
directory — which always equals the number of successful fetches — is
strictly below `max(1, ⌊0.8 · attempted⌋)`; the truncation makes this
strictly weaker than `succeeded < 0.8 · attempted` when `attempted` is not a
multiple of 5. -/
theorem main_escalation_amended (att : String → Nat → AttemptOutcome) (retries : Nat)
    (urls : List String) :
    main_escalates_to_ffmpeg urls.length
        (numTsFiles (download_segments_concurrent att retries urls)) = true ↔
      (download_segments_concurrent att retries urls).done
        < max 1 (4 * urls.length / 5) := by
  rw [numTsFiles_eq_done]
  simp [main_escalates_to_ffmpeg]

/-- C8: on a 10-segment list where the fetch of indices 0 through 4 always
succeeds and the fetch of indices 5 through 9 always returns 404, the run
completes the whole batch without aborting (a failure outcome is recorded for
every one of the failed indices 5–9), yields succeeded = 5 of attempted = 10,
and the output directory afterwards holds exactly the files `000000.ts`
through `000004.ts`. -/
theorem concurrent_retriever_five_of_ten :
    (download_segments_concurrent
        (fun u _ => if u = "s0" ∨ u = "s1" ∨ u = "s2" ∨ u = "s3" ∨ u = "s4"
          then AttemptOutcome.success [7, 7] else AttemptOutcome.httpError 404) 3
        ["s0", "s1", "s2", "s3", "s4", "s5", "s6", "s7", "s8", "s9"]).files.map Prod.fst
      = ["000000.ts", "000001.ts", "000002.ts", "000003.ts", "000004.ts"] ∧
    (download_segments_concurrent
        (fun u _ => if u = "s0" ∨ u = "s1" ∨ u = "s2" ∨ u = "s3" ∨ u = "s4"
          then AttemptOutcome.success [7, 7] else AttemptOutcome.httpError 404) 3
        ["s0", "s1", "s2", "s3", "s4", "s5", "s6", "s7", "s8", "s9"]).done = 5 ∧
    (["s0", "s1", "s2", "s3", "s4", "s5", "s6", "s7", "s8", "s9"] : List String).length = 10 ∧
    (download_segments_concurrent
        (fun u _ => if u = "s0" ∨ u = "s1" ∨ u = "s2" ∨ u = "s3" ∨ u = "s4"
          then AttemptOutcome.success [7, 7] else AttemptOutcome.httpError 404) 3
        ["s0", "s1", "s2", "s3", "s4", "s5", "s6", "s7", "s8", "s9"]).failures
      = [(5, some 404), (6, some 404), (7, some 404), (8, some 404), (9, some 404)] := by
  refine ⟨by decide, by decide, by decide, by decide⟩

theorem char_eq_of_toNat_eq {a b : Char} (h : a.toNat = b.toNat) : a = b :=
  Char.eq_of_val_eq (UInt32.toNat.inj h)

theorem charListLe_cons_iff (a b : Char) (as bs : List Char) :
    charListLe (a :: as) (b :: bs) = true ↔
      (a.toNat < b.toNat ∨ (a.toNat = b.toNat ∧ charListLe as bs = true)) := by
  rw [show charListLe (a :: as) (b :: bs)
      = (if a.toNat < b.toNat then true
         else if b.toNat < a.toNat then false else charListLe as bs) from rfl]
  by_cases h1 : a.toNat < b.toNat
  · simp [h1]
  · by_cases h2 : b.toNat < a.toNat
    · rw [if_neg h1, if_pos h2]
      constructor
      · intro h; exact absurd h (by simp)
      · intro h
        exfalso
        rcases h with h | ⟨h, _⟩
        · exact h1 h
        · omega
    · have he : a.toNat = b.toNat := by omega
      rw [if_neg h1, if_neg h2]
      simp [he]

theorem charListLe_total : ∀ as bs : List Char,
    charListLe as bs = true ∨ charListLe bs as = true
  | [], _ => Or.inl rfl
  | _ :: _, [] => Or.inr rfl
  | a :: as, b :: bs => by
    rcases Nat.lt_trichotomy a.toNat b.toNat with h | h | h
    · exact Or.inl ((charListLe_cons_iff a b as bs).mpr (Or.inl h))
    · rcases charListLe_total as bs with hle | hle
      · exact Or.inl ((charListLe_cons_iff a b as bs).mpr (Or.inr ⟨h, hle⟩))
      · exact Or.inr ((charListLe_cons_iff b a bs as).mpr (Or.inr ⟨h.symm, hle⟩))
    · exact Or.inr ((charListLe_cons_iff b a bs as).mpr (Or.inl h))

theorem charListLe_trans : ∀ as bs cs : List Char,
    charListLe as bs = true → charListLe bs cs = true → charListLe as cs = true
  | [], _, _ => fun _ _ => rfl
  | a :: as, [], cs => fun h _ => by simp [charListLe] at h
  | a :: as, b :: bs, [] => fun _ h => by simp [charListLe] at h
  | a :: as, b :: bs, c :: cs => fun h1 h2 => by
    rcases (charListLe_cons_iff a b as bs).mp h1 with hab | ⟨hab, hab'⟩ <;>
      rcases (charListLe_cons_iff b c bs cs).mp h2 with hbc | ⟨hbc, hbc'⟩
    · exact (charListLe_cons_iff a c as cs).mpr (Or.inl (by omega))
    · exact (charListLe_cons_iff a c as cs).mpr (Or.inl (by omega))
    · exact (charListLe_cons_iff a c as cs).mpr (Or.inl (by omega))
    · exact (charListLe_cons_iff a c as cs).mpr
        (Or.inr ⟨by omega, charListLe_trans as bs cs hab' hbc'⟩)

theorem charListLe_antisymm : ∀ as bs : List Char,
    charListLe as bs = true → charListLe bs as = true → as = bs
  | [], [] => fun _ _ => rfl
  | [], _ :: _ => fun _ h => by simp [charListLe] at h
  | _ :: _, [] => fun h _ => by simp [charListLe] at h
  | a :: as, b :: bs => fun h1 h2 => by
    rcases (charListLe_cons_iff a b as bs).mp h1 with hab | ⟨hab, hab'⟩ <;>
      rcases (charListLe_cons_iff b a bs as).mp h2 with hba | ⟨hba, hba'⟩ <;>
      try omega
    rw [char_eq_of_toNat_eq hab, charListLe_antisymm as bs hab' hba']

instance : IsTotal String (fun a b => strLe a b = true) :=
  ⟨fun a b => charListLe_total a.toList b.toList⟩

instance : IsTrans String (fun a b => strLe a b = true) :=
  ⟨fun a b c => charListLe_trans a.toList b.toList c.toList⟩

instance : IsAntisymm String (fun a b => strLe a b = true) :=
  ⟨fun a b h1 h2 => string_toList_inj (charListLe_antisymm a.toList b.toList h1 h2)⟩

/-- C9: the assembler concatenates segment files in lexicographic filename
order independent of the filesystem listing order — the listing
`000000.ts`, `000002.ts`, `000001.ts` is concatenated as 000000 then 000001
then 000002, and any two listings that are permutations of each other
assemble to the same output — and it fails with the no-segments error when
the directory holds no `.ts` file. -/
theorem concat_segments_lexicographic :
    (∀ read : String → List Nat,
        concat_segments_to_ts ["000000.ts", "000002.ts", "000001.ts"] read
          = .ok (read "000000.ts" ++ read "000001.ts" ++ read "000002.ts")) ∧
    (∀ (l1 l2 : List String) (read : String → List Nat), l1.Perm l2 →
        concat_segments_to_ts l1 read = concat_segments_to_ts l2 read) ∧
    (∀ (listing : List String) (read : String → List Nat),
        (∀ n ∈ listing, pyEndswith n ".ts" = false) →
        concat_segments_to_ts listing read = .error "No segment files to merge") := by
  refine ⟨?_, ?_, ?_⟩
  · intro read
    have hparts : List.insertionSort (fun a b => strLe a b = true)
        ((["000000.ts", "000002.ts", "000001.ts"] : List String).filter
          (fun n => pyEndswith n ".ts" && ¬ pyStartswith n ".")) =
        ["000000.ts", "000001.ts", "000002.ts"] := by decide
    unfold concat_segments_to_ts
    rw [hparts]
    rw [if_neg (by decide)]
    simp [List.append_assoc]
  · intro l1 l2 read hperm
    unfold concat_segments_to_ts
    have hs : List.insertionSort (fun a b => strLe a b = true)
          (l1.filter (fun n => pyEndswith n ".ts" && ¬ pyStartswith n ".")) =
        List.insertionSort (fun a b => strLe a b = true)
          (l2.filter (fun n => pyEndswith n ".ts" && ¬ pyStartswith n ".")) := by
      exact @List.eq_of_perm_of_sorted String (fun a b => strLe a b = true) _ _ _
        ((List.perm_insertionSort _ _).trans
          ((hperm.filter _).trans (List.perm_insertionSort _ _).symm))
        (List.sorted_insertionSort _ _) (List.sorted_insertionSort _ _)
    rw [hs]
  · intro listing read hnone
    unfold concat_segments_to_ts
    have hfil : listing.filter (fun n => pyEndswith n ".ts" && ¬ pyStartswith n ".") = [] := by
      rw [List.filter_eq_nil_iff]
      intro n hn
      simp [hnone n hn]
    rw [hfil]
    rfl

theorem concat_segments_lexicographic_witness :
    concat_segments_to_ts ["000001.ts", "000000.ts"] (fun _ => [3]) =
      concat_segments_to_ts ["000000.ts", "000001.ts"] (fun _ => [3]) :=
  concat_segments_lexicographic.2.1 ["000001.ts", "000000.ts"] ["000000.ts", "000001.ts"]
    (fun _ => [3]) (by decide)

theorem matchBandwidthBuggyAt_group (cs g : List Char)
    (h : matchBandwidthBuggyAt cs = some g) : ∃ run, g = '\\' :: run := by
  unfold matchBandwidthBuggyAt at h
  split at h
  · split at h
    · simp only [] at h
      split at h
      · exact absurd h (by simp)
      · exact ⟨_, (Option.some_inj.mp h).symm⟩
    · exact absurd h (by simp)
  · exact absurd h (by simp)

theorem matchBandwidthBuggyAt_backslash (cs g : List Char)
    (h : matchBandwidthBuggyAt cs = some g) : '\\' ∈ cs := by
  unfold matchBandwidthBuggyAt at h
  split at h
  · split at h
    case h_1 heq =>
      exact List.drop_subset 10 cs (heq ▸ List.mem_cons_self _ _)
    case h_2 => exact absurd h (by simp)
  · exact absurd h (by simp)

theorem findBandwidthBuggy_int_none : ∀ cs g : List Char,
    findBandwidthBuggy cs = some g → pyIntOfChars g = none := by
  intro cs
  induction cs with
  | nil => intro g h; simp [findBandwidthBuggy] at h
  | cons c cs ih =>
    intro g h
    rcases hm : matchBandwidthBuggyAt (c :: cs) with _ | run
    · simp only [findBandwidthBuggy, hm] at h
      exact ih g h
    · simp only [findBandwidthBuggy, hm, Option.some_inj] at h
      obtain ⟨r, hr⟩ := matchBandwidthBuggyAt_group (c :: cs) run hm
      rw [← h, hr]
      simp [pyIntOfChars]

theorem findBandwidthBuggy_eq_none (cs : List Char) (h : '\\' ∉ cs) :
    findBandwidthBuggy cs = none := by
  induction cs with
  | nil => rfl
  | cons c cs ih =>
    rcases hm : matchBandwidthBuggyAt (c :: cs) with _ | run
    · simp only [findBandwidthBuggy, hm]
      exact ih (fun hmem => h (List.mem_cons_of_mem c hmem))
    · exact absurd (matchBandwidthBuggyAt_backslash _ _ hm) h

theorem buggyBandwidthOfLine_ok (line : String) (h : '\\' ∉ line.toList) :
    buggyBandwidthOfLine line = .ok 0 := by
  unfold buggyBandwidthOfLine
  rw [findBandwidthBuggy_eq_none line.toList h]

theorem matchResolutionBuggyAt_backslash (cs : List Char)
    (g : List Char × List Char) (h : matchResolutionBuggyAt cs = some g) :
    '\\' ∈ cs := by
  unfold matchResolutionBuggyAt at h
  split at h
  · split at h
    case h_1 heq =>
      exact List.drop_subset 11 cs (heq ▸ List.mem_cons_self _ _)
    case h_2 => exact absurd h (by simp)
  · exact absurd h (by simp)

theorem findResolutionBuggy_eq_none (cs : List Char) (h : '\\' ∉ cs) :
    findResolutionBuggy cs = none := by
  induction cs with
  | nil => rfl
  | cons c cs ih =>
    rcases hm : matchResolutionBuggyAt (c :: cs) with _ | g
    · simp only [findResolutionBuggy, hm]
      exact ih (fun hmem => h (List.mem_cons_of_mem c hmem))
    · exact absurd (matchResolutionBuggyAt_backslash _ _ hm) h

theorem buggyHeightOfLine_ok (line : String) (h : '\\' ∉ line.toList) :
    buggyHeightOfLine line = .ok none := by
  unfold buggyHeightOfLine
  rw [findResolutionBuggy_eq_none line.toList h]

theorem pyStrip_subset (s : String) : ∀ c ∈ (pyStrip s).toList, c ∈ s.toList := by
  intro c hc
  have hc' : c ∈ (((s.toList.dropWhile Char.isWhitespace).reverse.dropWhile
      Char.isWhitespace).reverse) := hc
  have h1 := List.mem_reverse.mp hc'
  have h2 := (List.dropWhile_sublist _).subset h1
  have h3 := List.mem_reverse.mp h2
  exact (List.dropWhile_sublist _).subset h3

theorem stripNonEmpty_no_backslash (content : List String)
    (h : ∀ l ∈ content, '\\' ∉ l.toList) :
    ∀ l ∈ stripNonEmpty content, '\\' ∉ l.toList := by
  intro l hl hmem
  have hl' := (List.mem_filter.mp hl).1
  obtain ⟨l0, hl0, rfl⟩ := List.mem_map.mp hl'
  exact h l0 hl0 (pyStrip_subset l0 '\\' hmem)

theorem detectMasterVariantsGo_no_backslash (join : String → String → String)
    (base : String) :
    ∀ (lines : List String) (pending : Option Nat),
      (∀ l ∈ lines, '\\' ∉ l.toList) →
      (pending = none ∨ pending = some 0) →
      ∃ vs, detectMasterVariantsGo join base pending lines = .ok vs ∧ ∀ v ∈ vs, v.1 = 0 := by
  intro lines
  induction lines with
  | nil =>
    intro pending _ _
    exact ⟨[], by cases pending <;> rfl, by simp⟩
  | cons line rest ih =>
    intro pending hnb hp
    have hline : '\\' ∉ line.toList := hnb line (by simp)
    have hrest : ∀ l ∈ rest, '\\' ∉ l.toList := fun l hl => hnb l (by simp [hl])
    rcases hp with rfl | rfl
    · by_cases h : pyStartswith line "#EXT-X-STREAM-INF"
      · obtain ⟨vs, hvs, hall⟩ := ih (some 0) hrest (Or.inr rfl)
        refine ⟨vs, ?_, hall⟩
        simp only [detectMasterVariantsGo, h, if_true, buggyBandwidthOfLine_ok line hline]
        exact hvs
      · obtain ⟨vs, hvs, hall⟩ := ih none hrest (Or.inl rfl)
        exact ⟨vs, by simp [detectMasterVariantsGo, h, hvs], hall⟩
    · by_cases h : pyStartswith line "#"
      · obtain ⟨vs, hvs, hall⟩ := ih (some 0) hrest (Or.inr rfl)
        exact ⟨vs, by simp [detectMasterVariantsGo, h, hvs], hall⟩
      · obtain ⟨vs, hvs, hall⟩ := ih none hrest (Or.inl rfl)
        refine ⟨(0, join base line) :: vs, ?_, ?_⟩
        · simp [detectMasterVariantsGo, h, hvs]
        · intro v hv
          rcases List.mem_cons.mp hv with rfl | hv'
          · rfl
          · exact hall v hv'

theorem parseMasterVariantsOnlyGo_no_backslash (join : String → String → String)
    (base : String) :
    ∀ (lines : List String) (pending : Option (Nat × Option Nat)),
      (∀ l ∈ lines, '\\' ∉ l.toList) →
      (pending = none ∨ pending = some (0, none)) →
      ∃ vs, parseMasterVariantsOnlyGo join base pending lines = .ok vs ∧
        ∀ v ∈ vs, v.1 = 0 ∧ v.2.1 = none := by
  intro lines
  induction lines with
  | nil =>
    intro pending _ _
    exact ⟨[], by cases pending <;> rfl, by simp⟩
  | cons line rest ih =>
    intro pending hnb hp
    have hline : '\\' ∉ line.toList := hnb line (by simp)
    have hrest : ∀ l ∈ rest, '\\' ∉ l.toList := fun l hl => hnb l (by simp [hl])
    rcases hp with rfl | rfl
    · by_cases h : pyStartswith line "#EXT-X-STREAM-INF"
      · obtain ⟨vs, hvs, hall⟩ := ih (some (0, none)) hrest (Or.inr rfl)
        refine ⟨vs, ?_, hall⟩
        simp only [parseMasterVariantsOnlyGo, h, if_true,
          buggyBandwidthOfLine_ok line hline, buggyHeightOfLine_ok line hline]
        exact hvs
      · obtain ⟨vs, hvs, hall⟩ := ih none hrest (Or.inl rfl)
        exact ⟨vs, by simp [parseMasterVariantsOnlyGo, h, hvs], hall⟩
    · by_cases h : pyStartswith line "#"
      · obtain ⟨vs, hvs, hall⟩ := ih (some (0, none)) hrest (Or.inr rfl)
        exact ⟨vs, by simp [parseMasterVariantsOnlyGo, h, hvs], hall⟩
      · obtain ⟨vs, hvs, hall⟩ := ih none hrest (Or.inl rfl)
        refine ⟨(0, none, join base line) :: vs, ?_, ?_⟩
        · simp [parseMasterVariantsOnlyGo, h, hvs]
        · intro v hv
          rcases List.mem_cons.mp hv with rfl | hv'
          · exact ⟨rfl, rfl⟩
          · exact hall v hv'

theorem chooseByBandwidth_all_zero (v : Nat × String) (vs : List (Nat × String))
    (h : ∀ w ∈ v :: vs, w.1 = 0) :
    chooseByBandwidth (v :: vs) = some v := by
  have hfold := pyFoldMaxNat_keep (fun w : Nat × String => w.1) v vs
    (fun y hy => by simp only []; rw [h y (by simp [hy]), h v (by simp)]; simp)
  show some (vs.foldl
      (fun best y => if (fun w : Nat × String => w.1) best < (fun w : Nat × String => w.1) y
        then y else best) v) = some v
  exact congrArg some hfold

/-- C10: the doubled-backslash `BANDWIDTH=(\\d+)` pattern can never hand
`int()` a digit string (any matched group fails conversion); hence, on master
playlist lines free of literal backslashes (every real playlist), every
variant collected by `detect_encryption_in_playlist_chain` carries
bandwidth 0 and the variant it fetches and probes for encryption is always
the first-listed one, independent of the declared BANDWIDTH values;
`parse_master_variants_only` likewise yields only bandwidth 0 and height
`none`; and on a concrete master playlist with bandwidths 100, 900 the probed
variant differs from the variant whose segments
`resolve_segments_from_m3u8` downloads. -/
theorem detect_probes_first_variant :
    (∀ cs g : List Char, findBandwidthBuggy cs = some g → pyIntOfChars g = none) ∧
    (∀ (join : String → String → String) (base : String) (lines : List String)
        (v : Nat × String) (vs : List (Nat × String)),
        (∀ l ∈ lines, '\\' ∉ l.toList) →
        detectMasterVariants join base lines = .ok (v :: vs) →
        v.1 = 0 ∧ detectProbedUri join base lines = .ok (some v.2)) ∧
    (∀ (join : String → String → String) (content : List String) (base : String)
        (vs : List Variant),
        (∀ l ∈ content, '\\' ∉ l.toList) →
        parse_master_variants_only join content base = .ok vs →
        ∀ v ∈ vs, v.1 = 0 ∧ v.2.1 = none) ∧
    detectProbedUri joinConcat "b"
        ["#EXT-X-STREAM-INF:BANDWIDTH=100", "u1.m3u8",
         "#EXT-X-STREAM-INF:BANDWIDTH=900", "u2.m3u8"] = .ok (some "b/u1.m3u8") ∧
    resolveChosenUri joinConcat "b"
        ["#EXT-X-STREAM-INF:BANDWIDTH=100", "u1.m3u8",
         "#EXT-X-STREAM-INF:BANDWIDTH=900", "u2.m3u8"] = some "b/u2.m3u8" := by
  refine ⟨findBandwidthBuggy_int_none, ?_, ?_, by decide, by decide⟩
  · intro join base lines v vs hnb hdet
    obtain ⟨vs', hvs', hall⟩ :=
      detectMasterVariantsGo_no_backslash join base lines none hnb (Or.inl rfl)
    have h2 : (Except.ok (v :: vs) : Except String (List (Nat × String)))
        = Except.ok vs' := by
      rw [← hdet]; exact hvs'
    have heq : v :: vs = vs' := by injection h2
    subst heq
    have hall0 : ∀ w ∈ v :: vs, w.1 = 0 := hall
    refine ⟨hall0 v (by simp), ?_⟩
    unfold detectProbedUri
    rw [hdet]
    show Except.ok ((chooseByBandwidth (v :: vs)).map (fun w => w.2)) = _
    rw [chooseByBandwidth_all_zero v vs hall0]
    rfl
  · intro join content base vs hnb hok v hv
    obtain ⟨vs', hvs', hall⟩ := parseMasterVariantsOnlyGo_no_backslash join base
      (stripNonEmpty content) none (stripNonEmpty_no_backslash content hnb) (Or.inl rfl)
    have h2 : (Except.ok vs : Except String (List Variant)) = Except.ok vs' := by
      rw [← hok]; exact hvs'
    have heq : vs = vs' := by injection h2
    subst heq
    exact hall v hv

theorem detect_probes_first_variant_witness :
    (0, "b/u1.m3u8").1 = 0 ∧
      detectProbedUri joinConcat "b"
        ["#EXT-X-STREAM-INF:BANDWIDTH=100", "u1.m3u8",
         "#EXT-X-STREAM-INF:BANDWIDTH=900", "u2.m3u8"] = .ok (some "b/u1.m3u8") :=
  detect_probes_first_variant.2.1 joinConcat "b"
    ["#EXT-X-STREAM-INF:BANDWIDTH=100", "u1.m3u8",
     "#EXT-X-STREAM-INF:BANDWIDTH=900", "u2.m3u8"]
    (0, "b/u1.m3u8") [(0, "b/u2.m3u8")] (by decide) (by decide)
